import Mathlib

/-!
Verification development for the nvim-claude filesystem mediation shim
(`src/shim/src/lib.rs`).  The shim interposes the POSIX mutation entry
points (`write`, `pwrite`, `writev`, `close`, `unlink`, `rename`,
`truncate`, `ftruncate`), tracks file descriptors in a table, and talks to
a controller over a preflight/notify protocol.

The embedding below is a shallow model of that source:
* kernel-reported facts about an fd (`fstat` regularity, `F_GETPATH`,
  dev/ino) are an oracle record `FdEnv`;
* the raw syscall results are parameters (the kernel is external);
* the preflight decision reaching a handler is an oracle
  `RpcMethod → String → Bool` (its internal computation, `preflight_block`,
  is modelled separately as a pure function of the exchange outcome);
* the per-thread recursion counter is explicit state threaded through the
  guard functions;
* every wire message a handler attempts to put on the control stream is
  recorded in an event list.
-/

namespace Shim

/-- macOS `EPERM`. -/
def EPERM : Int := 1

/-- Largest value of the `u32` thread-local depth counter. -/
def u32Max : Nat := 2 ^ 32 - 1

/-- Model of `u32::saturating_add(1)` on the depth counter. -/
def satAdd32 (d : Nat) : Nat := min (d + 1) u32Max

/-- The token returned by `Guard::enter` in the source. -/
structure Guard where
  primary : Bool
  enabled : Bool
deriving DecidableEq, Repr

/-- Model of `Guard::enter`: reads the `SHIM_READY` flag (`ready`) and the
thread-local `IN_SHIM` counter (`depth`); primary iff the counter was zero;
the counter is then bumped with `saturating_add`.  When the shim is not
ready the counter is untouched and the token is disabled. -/
def Guard.enter (ready : Bool) (depth : Nat) : Guard × Nat :=
  if !ready then ({ primary := false, enabled := false }, depth)
  else ({ primary := decide (depth = 0), enabled := true }, satAdd32 depth)

/-- Model of `Drop for Guard`: a disabled token leaves the counter alone, otherwise
`saturating_sub(1)` (Nat subtraction is already saturating). -/
def Guard.drop (g : Guard) (depth : Nat) : Nat :=
  if !g.enabled then depth else depth - 1

/-- Model of `in_shim()`: false before the ready flag is set, otherwise whether the
thread's depth counter is positive. -/
def in_shim (ready : Bool) (depth : Nat) : Bool :=
  if !ready then false else decide (0 < depth)

/-- One record of the FD tracking table (`FdState` in the source). -/
structure FdState where
  path : Option String
  dev : Nat
  ino : Nat
  dirty : Bool
  pre_sent : Bool
deriving DecidableEq, Repr

/-- The process-wide FD table, as an association list keyed by fd. -/
abbrev FdTable := List (Int × FdState)

/-- Lookup in the FD table (`FD_TABLE.lock().get(&fd)`). -/
def lookupFd : FdTable → Int → Option FdState
  | [], _ => none
  | kv :: rest, fd => if kv.1 = fd then some kv.2 else lookupFd rest fd

/-- Insert-or-replace in the FD table. -/
def insertFd : FdTable → Int → FdState → FdTable
  | [], fd, s => [(fd, s)]
  | kv :: rest, fd, s => if kv.1 = fd then (fd, s) :: rest else kv :: insertFd rest fd s

/-- Removal from the FD table (`HashMap::remove`). -/
def eraseFd (t : FdTable) (fd : Int) : FdTable :=
  t.filter fun kv => kv.1 ≠ fd

/-- Model of `take_fd`: remove the entry, returning it. -/
def take_fd (t : FdTable) (fd : Int) : Option FdState × FdTable :=
  (lookupFd t fd, eraseFd t fd)

/-- What the kernel reports about a given fd at the time a handler runs:
`is_regular_file` (fstat `S_IFREG`), `fd_path` (`F_GETPATH`), and
`fd_dev_ino` (fstat dev/ino). -/
structure FdEnv where
  isReg : Bool
  fdPath : Option String
  devIno : Option (Nat × Nat)
deriving DecidableEq, Repr

/-- The `entry(fd).or_insert_with(...)` step plus the path and dev/ino
backfill, exactly as duplicated verbatim by `mark_fd_dirty` and
`maybe_pre_on_first_write` in the source. -/
def ensureEntry (env : FdEnv) (cur : Option FdState) : FdState :=
  let e0 := cur.getD { path := env.fdPath, dev := 0, ino := 0, dirty := false, pre_sent := false }
  let e1 := if e0.path.isNone then { e0 with path := env.fdPath } else e0
  if e1.dev = 0 ∧ e1.ino = 0 then
    match env.devIno with
    | some di => { e1 with dev := di.1, ino := di.2 }
    | none => e1
  else e1

/-- Model of `mark_fd_dirty`: ensure an entry exists and is populated, then set its
dirty flag.  Note the source performs no regular-file check here and never
touches `pre_sent`. -/
def mark_fd_dirty (env : FdEnv) (fd : Int) (t : FdTable) : FdTable :=
  insertFd t fd { ensureEntry env (lookupFd t fd) with dirty := true }

/-- Model of `tracked_path`: the path stored in the fd's table entry, if any. -/
def tracked_path (t : FdTable) (fd : Int) : Option String :=
  (lookupFd t fd).bind fun s => s.path

/-- JSON-RPC method names used on the wire. -/
inductive RpcMethod
  | preModify
  | preDelete
  | preRename
  | preTruncate
  | postModify
  | postDelete
deriving DecidableEq, Repr

/-- Tags of the `debug_event` messages emitted by the handlers. -/
inductive DbgTag
  | writeCall
  | pwriteCall
  | writevCall
  | closeCall
  | unlinkCall
  | renameCall
  | truncateCall
  | ftruncateCall
deriving DecidableEq, Repr

/-- A message the shim attempts to place on the control stream.  A
preflight records the fd it concerns when issued from an fd-keyed handler
(model bookkeeping; the wire carries pid and path). -/
inductive Msg
  | pre (method : RpcMethod) (fd : Option Int) (path : String)
  | post (method : RpcMethod) (path : String)
  | debugMsg (tag : DbgTag)
deriving DecidableEq, Repr

/-- Model of `post_notify`: returns early when `in_shim()` holds; otherwise the
notification line is written best-effort (`sendOk` abstracts serialization
plus `with_thread_stream` availability). -/
def post_notify (ready : Bool) (depth : Nat) (sendOk : Bool)
    (method : RpcMethod) (path : String) : List Msg :=
  if in_shim ready depth then []
  else if sendOk then [Msg.post method path] else []

/-- Model of `debug_event`: dropped unless debug mode is on and `in_shim()` is
false. -/
def debug_event (debugOn ready : Bool) (depth : Nat) (sendOk : Bool)
    (tag : DbgTag) : List Msg :=
  if !debugOn || in_shim ready depth then []
  else if sendOk then [Msg.debugMsg tag] else []

/-- The `DESTINATION` configuration. -/
inductive Destination
  | unix (path : String)
  | tcp (addr : String)
  | disabled
deriving DecidableEq, Repr

/-- Struct `AckRes` from the source: the `result` object of a reply. -/
structure AckRes where
  allow : Bool
deriving DecidableEq, Repr

/-- Struct `RpcAck` from the source (only `result` is inspected). -/
structure RpcAck where
  result : Option AckRes
deriving DecidableEq, Repr

/-- Outcome of the blocking read on the control stream, together with the
`serde_json::from_slice` parse of a received line (`none` = malformed). -/
inductive ExchangeOutcome
  | timedOut
  | readError
  | eof
  | line (parsed : Option RpcAck)
deriving DecidableEq, Repr

/-- Model of `preflight_block`.  `serOk` is whether `serde_json::to_vec` of the
request succeeds; `writeOk` is the result of `write_unhooked`, which the
source discards (`let _ = ...`); `conn` is `None` when
`with_thread_stream` finds no stream (connect failure), otherwise the read
outcome. -/
def preflight_block (dest : Destination) (failClosed : Bool) (serOk : Bool)
    (writeOk : Bool) (conn : Option ExchangeOutcome) : Bool :=
  match dest with
  | Destination.disabled => true
  | _ =>
    if !serOk then !failClosed
    else
      let _ := writeOk
      match conn with
      | some (ExchangeOutcome.line parsed) =>
        match parsed with
        | some ack =>
          match ack.result with
          | some res => res.allow
          | none => !failClosed
        | none => !failClosed
      | some ExchangeOutcome.timedOut => !failClosed
      | some ExchangeOutcome.readError => !failClosed
      | some ExchangeOutcome.eof => !failClosed
      | none => !failClosed

/-- Model of `c_path`: `None` for a null pointer (modelled as `none`) or an empty C
string, otherwise the path. -/
def c_path (p : Option String) : Option String :=
  match p with
  | none => none
  | some s => if s.isEmpty then none else some s

/-- Per-invocation context: the ready flag, the thread's depth counter on
entry, the debug flag, the preflight decision oracle (the value
`preflight_block` computes for that call), and whether notification sends
reach the stream. -/
structure Ctx where
  ready : Bool
  depth : Nat
  debugOn : Bool
  pre : RpcMethod → String → Bool
  sendOk : Bool

/-- Result of one handler invocation: the libc-visible return value, the
errno the shim itself set (if any), the FD table and thread depth counter
after the guard is dropped, the wire messages attempted, and whether the
raw syscall was performed. -/
structure HRes where
  ret : Int
  errno : Option Int
  table : FdTable
  depth : Nat
  events : List Msg
  rawCalled : Bool

/-- Model of `maybe_pre_on_first_write`: pass through non-regular files; otherwise
ensure/populate the entry, flip `pre_sent` if it was unset and, in that
case only and only with a known path, issue the `pre_modify` preflight.
Returns the updated table, the allow decision, and the messages issued. -/
def maybe_pre_on_first_write (env : FdEnv) (pre : RpcMethod → String → Bool)
    (fd : Int) (t : FdTable) : FdTable × Bool × List Msg :=
  if !env.isReg then (t, true, [])
  else
    let e := ensureEntry env (lookupFd t fd)
    if !e.pre_sent then
      let t1 := insertFd t fd { e with pre_sent := true }
      match e.path with
      | some p => (t1, pre RpcMethod.preModify p, [Msg.pre RpcMethod.preModify (some fd) p])
      | none => (t1, true, [])
    else
      (insertFd t fd e, true, [])

/-- Model of `handle_write`.  `rawRes` is what `syscall_write` returns when it is
reached. -/
def handle_write (cx : Ctx) (t : FdTable) (env : FdEnv) (fd : Int)
    (count : Nat) (rawRes : Int) : HRes :=
  let gd := Guard.enter cx.ready cx.depth
  let g := gd.1
  let d1 := gd.2
  if !g.enabled then
    { ret := rawRes, errno := none, table := t, depth := Guard.drop g d1
      events := [], rawCalled := true }
  else
    let mp :=
      if g.primary ∧ 0 < count then maybe_pre_on_first_write env cx.pre fd t
      else (t, true, [])
    let t1 := mp.1
    let allow := mp.2.1
    let evs := mp.2.2
    if !allow then
      { ret := -1, errno := some EPERM, table := t1, depth := Guard.drop g d1
        events := evs, rawCalled := false }
    else
      let md :=
        if g.primary ∧ 0 < rawRes ∧ 0 < count then
          (mark_fd_dirty env fd t1,
            debug_event cx.debugOn cx.ready d1 cx.sendOk DbgTag.writeCall)
        else (t1, [])
      { ret := rawRes, errno := none, table := md.1, depth := Guard.drop g d1
        events := evs ++ md.2, rawCalled := true }

/-- Model of `handle_pwrite` (identical tracking logic to `handle_write`). -/
def handle_pwrite (cx : Ctx) (t : FdTable) (env : FdEnv) (fd : Int)
    (count : Nat) (offset : Int) (rawRes : Int) : HRes :=
  let _ := offset
  let gd := Guard.enter cx.ready cx.depth
  let g := gd.1
  let d1 := gd.2
  if !g.enabled then
    { ret := rawRes, errno := none, table := t, depth := Guard.drop g d1
      events := [], rawCalled := true }
  else
    let mp :=
      if g.primary ∧ 0 < count then maybe_pre_on_first_write env cx.pre fd t
      else (t, true, [])
    let t1 := mp.1
    let allow := mp.2.1
    let evs := mp.2.2
    if !allow then
      { ret := -1, errno := some EPERM, table := t1, depth := Guard.drop g d1
        events := evs, rawCalled := false }
    else
      let md :=
        if g.primary ∧ 0 < rawRes ∧ 0 < count then
          (mark_fd_dirty env fd t1,
            debug_event cx.debugOn cx.ready d1 cx.sendOk DbgTag.pwriteCall)
        else (t1, [])
      { ret := rawRes, errno := none, table := md.1, depth := Guard.drop g d1
        events := evs ++ md.2, rawCalled := true }

/-- Model of `handle_writev`.  The preflight is gated on `iovcnt > 0`, but the
dirty-marking fires whenever the raw result is nonnegative — exactly as in
the source (`res >= 0`, with no `iovcnt` condition). -/
def handle_writev (cx : Ctx) (t : FdTable) (env : FdEnv) (fd : Int)
    (iovcnt : Int) (rawRes : Int) : HRes :=
  let gd := Guard.enter cx.ready cx.depth
  let g := gd.1
  let d1 := gd.2
  if !g.enabled then
    { ret := rawRes, errno := none, table := t, depth := Guard.drop g d1
      events := [], rawCalled := true }
  else
    let mp :=
      if g.primary ∧ 0 < iovcnt then maybe_pre_on_first_write env cx.pre fd t
      else (t, true, [])
    let t1 := mp.1
    let allow := mp.2.1
    let evs := mp.2.2
    if !allow then
      { ret := -1, errno := some EPERM, table := t1, depth := Guard.drop g d1
        events := evs, rawCalled := false }
    else
      let md :=
        if g.primary ∧ 0 ≤ rawRes then
          (mark_fd_dirty env fd t1,
            debug_event cx.debugOn cx.ready d1 cx.sendOk DbgTag.writevCall)
        else (t1, [])
      { ret := rawRes, errno := none, table := md.1, depth := Guard.drop g d1
        events := evs ++ md.2, rawCalled := true }

/-- Model of `handle_close`.  On primary entry the state is peeked before the raw
close, the entry is then taken out of the table unconditionally
(`take_fd(fd).or(state)`), and on a zero return a `post_modify` is
attempted for a dirty entry with a known path. -/
def handle_close (cx : Ctx) (t : FdTable) (fd : Int) (rc : Int) : HRes :=
  let gd := Guard.enter cx.ready cx.depth
  let g := gd.1
  let d1 := gd.2
  if !g.enabled then
    { ret := rc, errno := none, table := t, depth := Guard.drop g d1
      events := [], rawCalled := true }
  else
    let state := if g.primary then lookupFd t fd else none
    if g.primary then
      let tk := take_fd t fd
      let info := tk.1.or state
      let evs :=
        if rc = 0 then
          match info with
          | some i =>
            match i.path with
            | some p => if i.dirty then post_notify cx.ready d1 cx.sendOk RpcMethod.postModify p else []
            | none => []
          | none => []
        else []
      { ret := rc, errno := none, table := tk.2, depth := Guard.drop g d1
        events := evs ++ debug_event cx.debugOn cx.ready d1 cx.sendOk DbgTag.closeCall
        rawCalled := true }
    else
      { ret := rc, errno := none, table := t, depth := Guard.drop g d1
        events := [], rawCalled := true }

/-- Model of `handle_unlink`.  `path` models the C pointer argument (`none` = NULL). -/
def handle_unlink (cx : Ctx) (t : FdTable) (path : Option String) (rc : Int) : HRes :=
  let gd := Guard.enter cx.ready cx.depth
  let g := gd.1
  let d1 := gd.2
  if !g.enabled then
    { ret := rc, errno := none, table := t, depth := Guard.drop g d1
      events := [], rawCalled := true }
  else
    let pbuf := c_path path
    let pr :=
      if g.primary then
        match pbuf with
        | some p => (([Msg.pre RpcMethod.preDelete none p] : List Msg), cx.pre RpcMethod.preDelete p)
        | none => ([], true)
      else ([], true)
    let preEvs := pr.1
    let allow := pr.2
    if !allow then
      { ret := -1, errno := some EPERM, table := t, depth := Guard.drop g d1
        events := preEvs, rawCalled := false }
    else
      let postEvs :=
        if g.primary ∧ rc = 0 then
          (match pbuf with
           | some p => post_notify cx.ready d1 cx.sendOk RpcMethod.postDelete p
           | none => []) ++ debug_event cx.debugOn cx.ready d1 cx.sendOk DbgTag.unlinkCall
        else []
      { ret := rc, errno := none, table := t, depth := Guard.drop g d1
        events := preEvs ++ postEvs, rawCalled := true }

/-- Model of `handle_rename`.  Only the destination path is preflighted
(`pre_rename`), and only the destination is notified (`post_modify`) on
success. -/
def handle_rename (cx : Ctx) (t : FdTable) (old newPath : Option String) (rc : Int) : HRes :=
  let gd := Guard.enter cx.ready cx.depth
  let g := gd.1
  let d1 := gd.2
  if !g.enabled then
    { ret := rc, errno := none, table := t, depth := Guard.drop g d1
      events := [], rawCalled := true }
  else
    let _oldp := c_path old
    let newp := c_path newPath
    let pr :=
      if g.primary then
        match newp with
        | some p => (([Msg.pre RpcMethod.preRename none p] : List Msg), cx.pre RpcMethod.preRename p)
        | none => ([], true)
      else ([], true)
    let preEvs := pr.1
    let allow := pr.2
    if !allow then
      { ret := -1, errno := some EPERM, table := t, depth := Guard.drop g d1
        events := preEvs, rawCalled := false }
    else
      let postEvs :=
        if g.primary ∧ rc = 0 then
          (match newp with
           | some p => post_notify cx.ready d1 cx.sendOk RpcMethod.postModify p
           | none => []) ++ debug_event cx.debugOn cx.ready d1 cx.sendOk DbgTag.renameCall
        else []
      { ret := rc, errno := none, table := t, depth := Guard.drop g d1
        events := preEvs ++ postEvs, rawCalled := true }

/-- Model of `handle_truncate` (truncate by path). -/
def handle_truncate (cx : Ctx) (t : FdTable) (path : Option String)
    (len rc : Int) : HRes :=
  let _ := len
  let gd := Guard.enter cx.ready cx.depth
  let g := gd.1
  let d1 := gd.2
  if !g.enabled then
    { ret := rc, errno := none, table := t, depth := Guard.drop g d1
      events := [], rawCalled := true }
  else
    let pbuf := c_path path
    let pr :=
      if g.primary then
        match pbuf with
        | some p => (([Msg.pre RpcMethod.preTruncate none p] : List Msg), cx.pre RpcMethod.preTruncate p)
        | none => ([], true)
      else ([], true)
    let preEvs := pr.1
    let allow := pr.2
    if !allow then
      { ret := -1, errno := some EPERM, table := t, depth := Guard.drop g d1
        events := preEvs, rawCalled := false }
    else
      let postEvs :=
        if g.primary ∧ rc = 0 then
          (match pbuf with
           | some p => post_notify cx.ready d1 cx.sendOk RpcMethod.postModify p
           | none => []) ++ debug_event cx.debugOn cx.ready d1 cx.sendOk DbgTag.truncateCall
        else []
      { ret := rc, errno := none, table := t, depth := Guard.drop g d1
        events := preEvs ++ postEvs, rawCalled := true }

/-- Model of `handle_ftruncate`: preflights `pre_truncate` on every call when a
tracked path exists, then marks the fd dirty on a zero return.  Note the
source never sets `pre_sent` on this path. -/
def handle_ftruncate (cx : Ctx) (t : FdTable) (env : FdEnv) (fd : Int)
    (len rc : Int) : HRes :=
  let _ := len
  let gd := Guard.enter cx.ready cx.depth
  let g := gd.1
  let d1 := gd.2
  if !g.enabled then
    { ret := rc, errno := none, table := t, depth := Guard.drop g d1
      events := [], rawCalled := true }
  else
    let pr :=
      if g.primary then
        match tracked_path t fd with
        | some p => (([Msg.pre RpcMethod.preTruncate (some fd) p] : List Msg), cx.pre RpcMethod.preTruncate p)
        | none => ([], true)
      else ([], true)
    let preEvs := pr.1
    let allow := pr.2
    if !allow then
      { ret := -1, errno := some EPERM, table := t, depth := Guard.drop g d1
        events := preEvs, rawCalled := false }
    else
      let md :=
        if g.primary ∧ rc = 0 then
          (mark_fd_dirty env fd t,
            debug_event cx.debugOn cx.ready d1 cx.sendOk DbgTag.ftruncateCall)
        else (t, [])
      { ret := rc, errno := none, table := md.1, depth := Guard.drop g d1
        events := preEvs ++ md.2, rawCalled := true }

/-- The dirty flag of the fd's entry, false when untracked. -/
def dirtyAt (t : FdTable) (fd : Int) : Bool :=
  ((lookupFd t fd).map FdState.dirty).getD false

/-- The `pre_sent` flag of the fd's entry, false when untracked. -/
def preSentAt (t : FdTable) (fd : Int) : Bool :=
  ((lookupFd t fd).map FdState.pre_sent).getD false

/-- Levelwise table invariant: every entry with `dirty` also has
`pre_sent`. -/
def tableInvB (t : FdTable) : Bool :=
  t.all fun kv => !kv.2.dirty || kv.2.pre_sent

/-- A write-family operation (one mediated call on some fd), for traces. -/
inductive WOp
  | write (fd : Int) (env : FdEnv) (count : Nat) (raw : Int)
  | pwrite (fd : Int) (env : FdEnv) (count : Nat) (off : Int) (raw : Int)
  | writev (fd : Int) (env : FdEnv) (iovcnt : Int) (raw : Int)
  | ftruncate (fd : Int) (env : FdEnv) (len : Int) (rc : Int)
deriving Repr

/-- Run one write-family operation through its handler. -/
def stepW (cx : Ctx) (t : FdTable) : WOp → HRes
  | WOp.write fd env c r => handle_write cx t env fd c r
  | WOp.pwrite fd env c o r => handle_pwrite cx t env fd c o r
  | WOp.writev fd env n r => handle_writev cx t env fd n r
  | WOp.ftruncate fd env l r => handle_ftruncate cx t env fd l r

/-- Run a trace of write-family operations, collecting the wire messages. -/
def runW (t : FdTable) : List (Ctx × WOp) → FdTable × List Msg
  | [] => (t, [])
  | op :: rest =>
    let h := stepW op.1 t op.2
    let r2 := runW h.table rest
    (r2.1, h.events ++ r2.2)

/-- Whether a message is a `pre_modify` preflight issued for the given fd. -/
def isPreModifyFor (fd : Int) : Msg → Bool
  | Msg.pre RpcMethod.preModify (some fd2) _ => decide (fd2 = fd)
  | _ => false

/-- Number of `pre_modify` preflights for a given fd in an event list. -/
def countPreModify (fd : Int) (evs : List Msg) : Nat :=
  (evs.filter (isPreModifyFor fd)).length

/-- A concrete invocation context that allows every preflight. -/
def cxAllow : Ctx :=
  { ready := true, depth := 0, debugOn := false, pre := fun _ _ => true, sendOk := true }

/-- A concrete invocation context that denies every preflight. -/
def cxDeny : Ctx :=
  { ready := true, depth := 0, debugOn := false, pre := fun _ _ => false, sendOk := true }

/-- A regular file at a known path. -/
def envReg : FdEnv := { isReg := true, fdPath := some ("/tmp/f"), devIno := some (1, 2) }

/-- A pipe: not a regular file, no `F_GETPATH` path, but fstat succeeds. -/
def envPipe : FdEnv := { isReg := false, fdPath := none, devIno := some (3, 4) }

/-- A handler outcome that blocked the operation: the mediated call
returned -1, the shim set `EPERM`, and the raw syscall was not performed. -/
def denied (h : HRes) : Prop :=
  h.ret = -1 ∧ h.errno = some EPERM ∧ h.rawCalled = false

/-- Concrete table holding one clean, not-yet-preflighted entry for fd 4. -/
def tUFd4 : FdTable :=
  [(4, { path := some ("/u"), dev := 0, ino := 0, dirty := false, pre_sent := false })]

/-- Concrete table holding one clean entry for fd 3 whose preflight was
already sent. -/
def tSent3 : FdTable :=
  [(3, { path := some ("/f"), dev := 1, ino := 1, dirty := false, pre_sent := true })]

/-- Concrete table holding one dirty, preflighted entry for fd 3. -/
def tDirty3 : FdTable :=
  [(3, { path := some ("/tmp/f"), dev := 1, ino := 2, dirty := true, pre_sent := true })]

/-- Two consecutive writes on fd 3 by a primary thread. -/
def opsTwoWrites : List (Ctx × WOp) :=
  [(cxAllow, WOp.write 3 envReg 5 5), (cxAllow, WOp.write 3 envReg 6 6)]

/-! ### Table and entry lemmas -/

theorem lookupFd_insertFd_self (t : FdTable) (fd : Int) (s : FdState) :
    lookupFd (insertFd t fd s) fd = some s := by
  induction t with
  | nil => simp [insertFd, lookupFd]
  | cons kv rest ih =>
    obtain ⟨k, v⟩ := kv
    by_cases h : k = fd
    · simp [insertFd, lookupFd, h]
    · simp [insertFd, lookupFd, h, ih]

theorem lookupFd_insertFd_ne (t : FdTable) (fd fd' : Int) (s : FdState)
    (h : fd' ≠ fd) : lookupFd (insertFd t fd s) fd' = lookupFd t fd' := by
  have h' : fd ≠ fd' := Ne.symm h
  induction t with
  | nil => simp [insertFd, lookupFd, h']
  | cons kv rest ih =>
    obtain ⟨k, v⟩ := kv
    by_cases hk : k = fd
    · subst hk
      simp [insertFd, lookupFd, h']
    · simp [insertFd, lookupFd, hk, ih]

theorem ensureEntry_pre_sent (env : FdEnv) (cur : Option FdState) :
    (ensureEntry env cur).pre_sent = ((cur.map FdState.pre_sent).getD false) := by
  cases cur <;> cases hdi : env.devIno <;>
    simp only [ensureEntry, Option.getD_some, Option.getD_none, Option.map_some',
      Option.map_none', Option.getD, hdi] <;>
    split <;> (try split) <;> simp_all

theorem ensureEntry_dirty (env : FdEnv) (cur : Option FdState) :
    (ensureEntry env cur).dirty = ((cur.map FdState.dirty).getD false) := by
  cases cur <;> cases hdi : env.devIno <;>
    simp only [ensureEntry, Option.getD_some, Option.getD_none, Option.map_some',
      Option.map_none', Option.getD, hdi] <;>
    split <;> (try split) <;> simp_all

theorem mark_fd_dirty_preSentAt (env : FdEnv) (fd fd' : Int) (t : FdTable) :
    preSentAt (mark_fd_dirty env fd t) fd' = preSentAt t fd' := by
  by_cases h : fd' = fd
  · subst h
    simp [preSentAt, mark_fd_dirty, lookupFd_insertFd_self, ensureEntry_pre_sent]
  · simp [preSentAt, mark_fd_dirty, lookupFd_insertFd_ne _ _ _ _ h]

theorem mark_fd_dirty_dirtyAt_self (env : FdEnv) (fd : Int) (t : FdTable) :
    dirtyAt (mark_fd_dirty env fd t) fd = true := by
  simp [dirtyAt, mark_fd_dirty, lookupFd_insertFd_self]

/-! ### `maybe_pre_on_first_write` lemmas -/

theorem maybe_pre_not_reg (env : FdEnv) (pre : RpcMethod → String → Bool)
    (fd : Int) (t : FdTable) (h : env.isReg = false) :
    maybe_pre_on_first_write env pre fd t = (t, true, []) := by
  simp [maybe_pre_on_first_write, h]

theorem maybe_pre_preSentAt_self (env : FdEnv) (pre : RpcMethod → String → Bool)
    (fd : Int) (t : FdTable) (h : env.isReg = true) :
    preSentAt (maybe_pre_on_first_write env pre fd t).1 fd = true := by
  simp only [maybe_pre_on_first_write, h]
  split
  · simp_all
  · split
    · split <;> simp [preSentAt, lookupFd_insertFd_self]
    · next hps =>
      simp only [Bool.not_eq_true'] at hps
      simp [preSentAt, lookupFd_insertFd_self, hps]

theorem maybe_pre_preSentAt_other (env : FdEnv) (pre : RpcMethod → String → Bool)
    (fd fd' : Int) (t : FdTable) (h : fd' ≠ fd) :
    preSentAt (maybe_pre_on_first_write env pre fd t).1 fd' = preSentAt t fd' := by
  simp only [maybe_pre_on_first_write]
  split
  · rfl
  · split
    · split <;> simp [preSentAt, lookupFd_insertFd_ne _ _ _ _ h]
    · simp [preSentAt, lookupFd_insertFd_ne _ _ _ _ h]

theorem maybe_pre_dirtyAt (env : FdEnv) (pre : RpcMethod → String → Bool)
    (fd fd' : Int) (t : FdTable) :
    dirtyAt (maybe_pre_on_first_write env pre fd t).1 fd' = dirtyAt t fd' := by
  by_cases h : fd' = fd
  · subst h
    simp only [maybe_pre_on_first_write]
    split
    · rfl
    · split
      · split <;> simp [dirtyAt, lookupFd_insertFd_self, ensureEntry_dirty]
      · simp [dirtyAt, lookupFd_insertFd_self, ensureEntry_dirty]
  · simp only [maybe_pre_on_first_write]
    split
    · rfl
    · split
      · split <;> simp [dirtyAt, lookupFd_insertFd_ne _ _ _ _ h]
      · simp [dirtyAt, lookupFd_insertFd_ne _ _ _ _ h]

theorem maybe_pre_no_send (env : FdEnv) (pre : RpcMethod → String → Bool)
    (fd : Int) (t : FdTable) (h : preSentAt t fd = true) :
    (maybe_pre_on_first_write env pre fd t).2.2 = [] := by
  simp only [maybe_pre_on_first_write]
  split
  · rfl
  · have hps : (ensureEntry env (lookupFd t fd)).pre_sent = true := by
      rw [ensureEntry_pre_sent]
      simpa [preSentAt] using h
    simp [hps]

theorem maybe_pre_events (env : FdEnv) (pre : RpcMethod → String → Bool)
    (fd : Int) (t : FdTable) :
    (maybe_pre_on_first_write env pre fd t).2.2 = [] ∨
      ∃ p, (maybe_pre_on_first_write env pre fd t).2.2 = [Msg.pre RpcMethod.preModify (some fd) p] := by
  simp only [maybe_pre_on_first_write]
  split
  · exact Or.inl rfl
  · split
    · split
      · next p _ => exact Or.inr ⟨p, rfl⟩
      · exact Or.inl rfl
    · exact Or.inl rfl

theorem maybe_pre_preSentAt_mono (env : FdEnv) (pre : RpcMethod → String → Bool)
    (fd fd' : Int) (t : FdTable) (h : preSentAt t fd' = true) :
    preSentAt (maybe_pre_on_first_write env pre fd t).1 fd' = true := by
  by_cases hf : fd' = fd
  · subst hf
    cases hreg : env.isReg
    · rw [maybe_pre_not_reg _ _ _ _ hreg]
      exact h
    · exact maybe_pre_preSentAt_self env pre fd' t hreg
  · rw [maybe_pre_preSentAt_other env pre fd fd' t hf]
    exact h

/-! ### Counting lemmas -/

theorem countPreModify_nil (fd : Int) : countPreModify fd [] = 0 := rfl

theorem countPreModify_append (fd : Int) (a b : List Msg) :
    countPreModify fd (a ++ b) = countPreModify fd a + countPreModify fd b := by
  simp [countPreModify, List.filter_append]

theorem countPreModify_single_other (fd fd' : Int) (p : String) (h : fd ≠ fd') :
    countPreModify fd' [Msg.pre RpcMethod.preModify (some fd) p] = 0 := by
  simp [countPreModify, isPreModifyFor, h]

theorem countPreModify_preTruncate (fd' fd : Int) (p : String) :
    countPreModify fd' [Msg.pre RpcMethod.preTruncate (some fd) p] = 0 := by
  simp [countPreModify, isPreModifyFor]

theorem maybe_pre_count_le (env : FdEnv) (pre : RpcMethod → String → Bool)
    (fd fd' : Int) (t : FdTable) :
    countPreModify fd' (maybe_pre_on_first_write env pre fd t).2.2 ≤ 1 := by
  rcases maybe_pre_events env pre fd t with he | ⟨p, he⟩
  · rw [he, countPreModify_nil]
    exact Nat.zero_le 1
  · rw [he]
    simp [countPreModify, List.filter]
    split <;> simp

theorem maybe_pre_send_sets (env : FdEnv) (pre : RpcMethod → String → Bool)
    (fd fd' : Int) (t : FdTable)
    (h : 1 ≤ countPreModify fd' (maybe_pre_on_first_write env pre fd t).2.2) :
    preSentAt (maybe_pre_on_first_write env pre fd t).1 fd' = true := by
  rcases maybe_pre_events env pre fd t with he | ⟨p, he⟩
  · rw [he, countPreModify_nil] at h
    omega
  · by_cases hf : fd = fd'
    · subst hf
      cases hreg : env.isReg
      · have := maybe_pre_not_reg env pre fd t hreg
        rw [this] at he
        simp at he
      · exact maybe_pre_preSentAt_self env pre fd t hreg
    · rw [he, countPreModify_single_other fd fd' p hf] at h
      omega

theorem maybe_pre_count_zero_of_sent (env : FdEnv) (pre : RpcMethod → String → Bool)
    (fd fd' : Int) (t : FdTable) (h : preSentAt t fd' = true) :
    countPreModify fd' (maybe_pre_on_first_write env pre fd t).2.2 = 0 := by
  by_cases hf : fd = fd'
  · subst hf
    rw [maybe_pre_no_send env pre fd t h, countPreModify_nil]
  · rcases maybe_pre_events env pre fd t with he | ⟨p, he⟩
    · rw [he, countPreModify_nil]
    · rw [he, countPreModify_single_other fd fd' p hf]

/-! ### Guard depth and notification gating lemmas -/

theorem satAdd32_pos (d : Nat) : 0 < satAdd32 d := by
  have h2 : (0 : Nat) < u32Max := by norm_num [u32Max]
  simpa [satAdd32] using Nat.lt_min.mpr ⟨Nat.succ_pos d, h2⟩

theorem in_shim_satAdd32 (d : Nat) : in_shim true (satAdd32 d) = true := by
  simp [in_shim, satAdd32_pos]

theorem post_notify_in_handler (d : Nat) (sOk : Bool) (m : RpcMethod) (p : String) :
    post_notify true (satAdd32 d) sOk m p = [] := by
  simp [post_notify, in_shim_satAdd32]

theorem debug_event_in_handler (dbgOn : Bool) (d : Nat) (sOk : Bool) (tag : DbgTag) :
    debug_event dbgOn true (satAdd32 d) sOk tag = [] := by
  simp [debug_event, in_shim_satAdd32]

/-! ### Per-step preflight bounds (write family) -/

theorem handle_write_pre_bound (cx : Ctx) (t : FdTable) (env : FdEnv)
    (fdop : Int) (count : Nat) (raw : Int) (fd : Int) :
    countPreModify fd (handle_write cx t env fdop count raw).events ≤ 1
    ∧ (1 ≤ countPreModify fd (handle_write cx t env fdop count raw).events →
        preSentAt (handle_write cx t env fdop count raw).table fd = true)
    ∧ (preSentAt t fd = true →
        countPreModify fd (handle_write cx t env fdop count raw).events = 0
        ∧ preSentAt (handle_write cx t env fdop count raw).table fd = true) := by
  cases hr : cx.ready with
  | false =>
    simp [handle_write, Guard.enter, hr, countPreModify]
  | true =>
    by_cases hd : cx.depth = 0
    · by_cases hc : 0 < count
      · rcases hmp : maybe_pre_on_first_write env cx.pre fdop t with ⟨t1, allow, evs⟩
        have hle := maybe_pre_count_le env cx.pre fdop fd t
        have hset := maybe_pre_send_sets env cx.pre fdop fd t
        have hmono := maybe_pre_preSentAt_mono env cx.pre fdop fd t
        have hzero := maybe_pre_count_zero_of_sent env cx.pre fdop fd t
        rw [hmp] at hle hset hmono hzero
        simp only at hle hset hmono hzero
        cases allow with
        | false =>
          simp only [handle_write, Guard.enter, hr, hd, hc, hmp,
            decide_True, true_and, if_true, Bool.not_true, Bool.not_false,
            Bool.false_eq_true, if_false, and_true, and_self]
          refine ⟨hle, hset, fun hps => ⟨hzero hps, hmono hps⟩⟩
        | true =>
          by_cases hraw : 0 < raw
          · simp only [handle_write, Guard.enter, hr, hd, hc, hraw, hmp,
              decide_True, true_and, if_true, Bool.not_true, Bool.not_false,
              Bool.false_eq_true, if_false, and_true, and_self,
              debug_event_in_handler, List.append_nil]
            rw [mark_fd_dirty_preSentAt]
            refine ⟨hle, hset, fun hps => ⟨hzero hps, hmono hps⟩⟩
          · simp only [handle_write, Guard.enter, hr, hd, hc, hraw, hmp,
              decide_True, true_and, if_true, Bool.not_true, Bool.not_false,
              Bool.false_eq_true, if_false, false_and, and_false,
              debug_event_in_handler, List.append_nil]
            refine ⟨hle, hset, fun hps => ⟨hzero hps, hmono hps⟩⟩
      · simp [handle_write, Guard.enter, hr, hd, hc, countPreModify]
    · simp [handle_write, Guard.enter, hr, hd, countPreModify]

theorem handle_pwrite_pre_bound (cx : Ctx) (t : FdTable) (env : FdEnv)
    (fdop : Int) (count : Nat) (off raw : Int) (fd : Int) :
    countPreModify fd (handle_pwrite cx t env fdop count off raw).events ≤ 1
    ∧ (1 ≤ countPreModify fd (handle_pwrite cx t env fdop count off raw).events →
        preSentAt (handle_pwrite cx t env fdop count off raw).table fd = true)
    ∧ (preSentAt t fd = true →
        countPreModify fd (handle_pwrite cx t env fdop count off raw).events = 0
        ∧ preSentAt (handle_pwrite cx t env fdop count off raw).table fd = true) := by
  cases hr : cx.ready with
  | false =>
    simp [handle_pwrite, Guard.enter, hr, countPreModify]
  | true =>
    by_cases hd : cx.depth = 0
    · by_cases hc : 0 < count
      · rcases hmp : maybe_pre_on_first_write env cx.pre fdop t with ⟨t1, allow, evs⟩
        have hle := maybe_pre_count_le env cx.pre fdop fd t
        have hset := maybe_pre_send_sets env cx.pre fdop fd t
        have hmono := maybe_pre_preSentAt_mono env cx.pre fdop fd t
        have hzero := maybe_pre_count_zero_of_sent env cx.pre fdop fd t
        rw [hmp] at hle hset hmono hzero
        simp only at hle hset hmono hzero
        cases allow with
        | false =>
          simp only [handle_pwrite, Guard.enter, hr, hd, hc, hmp,
            decide_True, true_and, if_true, Bool.not_true, Bool.not_false,
            Bool.false_eq_true, if_false, and_true, and_self]
          refine ⟨hle, hset, fun hps => ⟨hzero hps, hmono hps⟩⟩
        | true =>
          by_cases hraw : 0 < raw
          · simp only [handle_pwrite, Guard.enter, hr, hd, hc, hraw, hmp,
              decide_True, true_and, if_true, Bool.not_true, Bool.not_false,
              Bool.false_eq_true, if_false, and_true, and_self,
              debug_event_in_handler, List.append_nil]
            rw [mark_fd_dirty_preSentAt]
            refine ⟨hle, hset, fun hps => ⟨hzero hps, hmono hps⟩⟩
          · simp only [handle_pwrite, Guard.enter, hr, hd, hc, hraw, hmp,
              decide_True, true_and, if_true, Bool.not_true, Bool.not_false,
              Bool.false_eq_true, if_false, false_and, and_false,
              debug_event_in_handler, List.append_nil]
            refine ⟨hle, hset, fun hps => ⟨hzero hps, hmono hps⟩⟩
      · simp [handle_pwrite, Guard.enter, hr, hd, hc, countPreModify]
    · simp [handle_pwrite, Guard.enter, hr, hd, countPreModify]

theorem handle_writev_pre_bound (cx : Ctx) (t : FdTable) (env : FdEnv)
    (fdop : Int) (iovcnt raw : Int) (fd : Int) :
    countPreModify fd (handle_writev cx t env fdop iovcnt raw).events ≤ 1
    ∧ (1 ≤ countPreModify fd (handle_writev cx t env fdop iovcnt raw).events →
        preSentAt (handle_writev cx t env fdop iovcnt raw).table fd = true)
    ∧ (preSentAt t fd = true →
        countPreModify fd (handle_writev cx t env fdop iovcnt raw).events = 0
        ∧ preSentAt (handle_writev cx t env fdop iovcnt raw).table fd = true) := by
  cases hr : cx.ready with
  | false =>
    simp [handle_writev, Guard.enter, hr, countPreModify]
  | true =>
    by_cases hd : cx.depth = 0
    · by_cases hc : 0 < iovcnt
      · rcases hmp : maybe_pre_on_first_write env cx.pre fdop t with ⟨t1, allow, evs⟩
        have hle := maybe_pre_count_le env cx.pre fdop fd t
        have hset := maybe_pre_send_sets env cx.pre fdop fd t
        have hmono := maybe_pre_preSentAt_mono env cx.pre fdop fd t
        have hzero := maybe_pre_count_zero_of_sent env cx.pre fdop fd t
        rw [hmp] at hle hset hmono hzero
        simp only at hle hset hmono hzero
        cases allow with
        | false =>
          simp only [handle_writev, Guard.enter, hr, hd, hc, hmp,
            decide_True, true_and, if_true, Bool.not_true, Bool.not_false,
            Bool.false_eq_true, if_false, and_true, and_self]
          refine ⟨hle, hset, fun hps => ⟨hzero hps, hmono hps⟩⟩
        | true =>
          by_cases hraw : 0 ≤ raw
          · simp only [handle_writev, Guard.enter, hr, hd, hc, hraw, hmp,
              decide_True, true_and, if_true, Bool.not_true, Bool.not_false,
              Bool.false_eq_true, if_false, and_true, and_self,
              debug_event_in_handler, List.append_nil]
            rw [mark_fd_dirty_preSentAt]
            refine ⟨hle, hset, fun hps => ⟨hzero hps, hmono hps⟩⟩
          · simp only [handle_writev, Guard.enter, hr, hd, hc, hraw, hmp,
              decide_True, true_and, if_true, Bool.not_true, Bool.not_false,
              Bool.false_eq_true, if_false, and_true, and_false,
              debug_event_in_handler, List.append_nil]
            refine ⟨hle, hset, fun hps => ⟨hzero hps, hmono hps⟩⟩
      · by_cases hraw : 0 ≤ raw
        · simp only [handle_writev, Guard.enter, hr, hd, hc, hraw,
            decide_True, true_and, if_true, Bool.not_true, Bool.not_false,
            Bool.false_eq_true, if_false, and_true, and_self, and_false, false_and,
            debug_event_in_handler, List.append_nil, List.nil_append]
          rw [mark_fd_dirty_preSentAt]
          simp [countPreModify]
        · simp [handle_writev, Guard.enter, hr, hd, hc, hraw, countPreModify]
    · simp [handle_writev, Guard.enter, hr, hd, countPreModify]

theorem handle_ftruncate_pre_bound (cx : Ctx) (t : FdTable) (env : FdEnv)
    (fdop : Int) (len rc : Int) (fd : Int) :
    countPreModify fd (handle_ftruncate cx t env fdop len rc).events ≤ 1
    ∧ (1 ≤ countPreModify fd (handle_ftruncate cx t env fdop len rc).events →
        preSentAt (handle_ftruncate cx t env fdop len rc).table fd = true)
    ∧ (preSentAt t fd = true →
        countPreModify fd (handle_ftruncate cx t env fdop len rc).events = 0
        ∧ preSentAt (handle_ftruncate cx t env fdop len rc).table fd = true) := by
  cases hr : cx.ready with
  | false =>
    simp [handle_ftruncate, Guard.enter, hr, countPreModify]
  | true =>
    by_cases hd : cx.depth = 0
    · cases htp : tracked_path t fdop with
      | none =>
        by_cases hrc : rc = 0
        · simp only [handle_ftruncate, Guard.enter, hr, hd, hrc, htp,
            decide_True, true_and, if_true, Bool.not_true, Bool.not_false,
            Bool.false_eq_true, if_false, and_self,
            debug_event_in_handler, List.append_nil, List.nil_append]
          rw [mark_fd_dirty_preSentAt]
          simp [countPreModify]
        · simp [handle_ftruncate, Guard.enter, hr, hd, hrc, htp, countPreModify]
      | some p =>
        cases hal : cx.pre RpcMethod.preTruncate p with
        | false =>
          simp only [handle_ftruncate, Guard.enter, hr, hd, htp, hal,
            decide_True, true_and, if_true, Bool.not_true, Bool.not_false,
            Bool.false_eq_true, if_false, and_self]
          rw [countPreModify_preTruncate]
          simp
        | true =>
          by_cases hrc : rc = 0
          · simp only [handle_ftruncate, Guard.enter, hr, hd, htp, hal, hrc,
              decide_True, true_and, if_true, Bool.not_true, Bool.not_false,
              Bool.false_eq_true, if_false, and_self,
              debug_event_in_handler, List.append_nil]
            rw [countPreModify_preTruncate, mark_fd_dirty_preSentAt]
            simp
          · simp only [handle_ftruncate, Guard.enter, hr, hd, htp, hal, hrc,
              decide_True, true_and, if_true, Bool.not_true, Bool.not_false,
              Bool.false_eq_true, if_false, and_self, and_false,
              List.append_nil]
            rw [countPreModify_preTruncate]
            simp
    · simp [handle_ftruncate, Guard.enter, hr, hd, countPreModify]

theorem stepW_pre_bound (cx : Ctx) (t : FdTable) (op : WOp) (fd : Int) :
    countPreModify fd (stepW cx t op).events ≤ 1
    ∧ (1 ≤ countPreModify fd (stepW cx t op).events →
        preSentAt (stepW cx t op).table fd = true)
    ∧ (preSentAt t fd = true →
        countPreModify fd (stepW cx t op).events = 0
        ∧ preSentAt (stepW cx t op).table fd = true) := by
  cases op with
  | write fdop env c r => exact handle_write_pre_bound cx t env fdop c r fd
  | pwrite fdop env c o r => exact handle_pwrite_pre_bound cx t env fdop c o r fd
  | writev fdop env n r => exact handle_writev_pre_bound cx t env fdop n r fd
  | ftruncate fdop env l r => exact handle_ftruncate_pre_bound cx t env fdop l r fd

theorem runW_pre_bound (ops : List (Ctx × WOp)) (t : FdTable) (fd : Int) :
    (preSentAt t fd = true →
      preSentAt (runW t ops).1 fd = true ∧ countPreModify fd (runW t ops).2 = 0)
    ∧ countPreModify fd (runW t ops).2 ≤ 1 := by
  induction ops generalizing t with
  | nil =>
    simp [runW, countPreModify]
  | cons op rest ih =>
    obtain ⟨hle, hset, hmono⟩ := stepW_pre_bound op.1 t op.2 fd
    have hrw : runW t (op :: rest) =
        ((runW (stepW op.1 t op.2).table rest).1,
          (stepW op.1 t op.2).events ++ (runW (stepW op.1 t op.2).table rest).2) := rfl
    rw [hrw]
    simp only [countPreModify_append]
    constructor
    · intro hps
      obtain ⟨h0, h1⟩ := hmono hps
      obtain ⟨h2, h3⟩ := (ih (stepW op.1 t op.2).table).1 h1
      exact ⟨h2, by omega⟩
    · by_cases h1 : 1 ≤ countPreModify fd (stepW op.1 t op.2).events
      · have hsent := hset h1
        have h2 := ((ih (stepW op.1 t op.2).table).1 hsent).2
        omega
      · have h2 := (ih (stepW op.1 t op.2).table).2
        omega

/-! ### Close handler events -/

theorem handle_close_events_nil (cx : Ctx) (t : FdTable) (fd : Int) (rc : Int) :
    (handle_close cx t fd rc).events = [] := by
  cases hr : cx.ready with
  | false => simp [handle_close, Guard.enter, hr]
  | true =>
    by_cases hd : cx.depth = 0
    · simp only [handle_close, Guard.enter, hr, hd, decide_True, Bool.not_true,
        Bool.false_eq_true, if_false, if_true, debug_event_in_handler,
        List.append_nil, post_notify_in_handler]
      split
      · split
        · split
          · split <;> rfl
          · rfl
        · rfl
      · rfl
    · simp [handle_close, Guard.enter, hr, hd]

/-! ### Dirty-implies-pre_sent invariant machinery -/

theorem tableInvB_insertFd (t : FdTable) (fd : Int) (s : FdState)
    (ht : tableInvB t = true) (hs : (!s.dirty || s.pre_sent) = true) :
    tableInvB (insertFd t fd s) = true := by
  induction t with
  | nil => simp [insertFd, tableInvB, hs]
  | cons kv rest ih =>
    obtain ⟨k, v⟩ := kv
    simp only [tableInvB, List.all_cons, Bool.and_eq_true] at ht
    by_cases hk : k = fd
    · simp [insertFd, tableInvB, hk, hs, ht.2]
    · have h2 := ih ht.2
      simp only [tableInvB] at h2
      simp [insertFd, tableInvB, hk, ht.1, h2]

theorem tableInvB_eraseFd (t : FdTable) (fd : Int) (ht : tableInvB t = true) :
    tableInvB (eraseFd t fd) = true := by
  simp only [tableInvB, eraseFd, List.all_eq_true] at ht ⊢
  intro kv hkv
  exact ht kv (List.mem_of_mem_filter hkv)

theorem tableInvB_maybe_pre (env : FdEnv) (pre : RpcMethod → String → Bool)
    (fd : Int) (t : FdTable) (ht : tableInvB t = true) :
    tableInvB (maybe_pre_on_first_write env pre fd t).1 = true := by
  simp only [maybe_pre_on_first_write]
  split
  · exact ht
  · split
    · split <;> (apply tableInvB_insertFd _ _ _ ht; simp)
    · next hps =>
      apply tableInvB_insertFd _ _ _ ht
      simp only [Bool.not_eq_true'] at hps
      simp [hps]

theorem tableInvB_mark (env : FdEnv) (fd : Int) (t : FdTable)
    (ht : tableInvB t = true) (hps : preSentAt t fd = true) :
    tableInvB (mark_fd_dirty env fd t) = true := by
  apply tableInvB_insertFd _ _ _ ht
  have he := ensureEntry_pre_sent env (lookupFd t fd)
  simp only [preSentAt] at hps
  simp [he, hps]

theorem tableInvB_handle_write (cx : Ctx) (t : FdTable) (env : FdEnv)
    (fd : Int) (count : Nat) (raw : Int)
    (ht : tableInvB t = true) (hreg : env.isReg = true) :
    tableInvB (handle_write cx t env fd count raw).table = true := by
  cases hr : cx.ready with
  | false => simpa [handle_write, Guard.enter, hr] using ht
  | true =>
    by_cases hd : cx.depth = 0
    · by_cases hc : 0 < count
      · rcases hmp : maybe_pre_on_first_write env cx.pre fd t with ⟨t1, allow, evs⟩
        have hinv1 := tableInvB_maybe_pre env cx.pre fd t ht
        have hps := maybe_pre_preSentAt_self env cx.pre fd t hreg
        rw [hmp] at hinv1 hps
        simp only at hinv1 hps
        cases allow with
        | false =>
          simpa [handle_write, Guard.enter, hr, hd, hc, hmp] using hinv1
        | true =>
          by_cases hraw : 0 < raw
          · simp only [handle_write, Guard.enter, hr, hd, hc, hraw, hmp,
              decide_True, true_and, if_true, Bool.not_true, Bool.not_false,
              Bool.false_eq_true, if_false, and_true, and_self]
            exact tableInvB_mark env fd t1 hinv1 hps
          · simpa [handle_write, Guard.enter, hr, hd, hc, hraw, hmp] using hinv1
      · simpa [handle_write, Guard.enter, hr, hd, hc] using ht
    · simpa [handle_write, Guard.enter, hr, hd] using ht

theorem tableInvB_handle_pwrite (cx : Ctx) (t : FdTable) (env : FdEnv)
    (fd : Int) (count : Nat) (off raw : Int)
    (ht : tableInvB t = true) (hreg : env.isReg = true) :
    tableInvB (handle_pwrite cx t env fd count off raw).table = true := by
  cases hr : cx.ready with
  | false => simpa [handle_pwrite, Guard.enter, hr] using ht
  | true =>
    by_cases hd : cx.depth = 0
    · by_cases hc : 0 < count
      · rcases hmp : maybe_pre_on_first_write env cx.pre fd t with ⟨t1, allow, evs⟩
        have hinv1 := tableInvB_maybe_pre env cx.pre fd t ht
        have hps := maybe_pre_preSentAt_self env cx.pre fd t hreg
        rw [hmp] at hinv1 hps
        simp only at hinv1 hps
        cases allow with
        | false =>
          simpa [handle_pwrite, Guard.enter, hr, hd, hc, hmp] using hinv1
        | true =>
          by_cases hraw : 0 < raw
          · simp only [handle_pwrite, Guard.enter, hr, hd, hc, hraw, hmp,
              decide_True, true_and, if_true, Bool.not_true, Bool.not_false,
              Bool.false_eq_true, if_false, and_true, and_self]
            exact tableInvB_mark env fd t1 hinv1 hps
          · simpa [handle_pwrite, Guard.enter, hr, hd, hc, hraw, hmp] using hinv1
      · simpa [handle_pwrite, Guard.enter, hr, hd, hc] using ht
    · simpa [handle_pwrite, Guard.enter, hr, hd] using ht

theorem tableInvB_handle_writev (cx : Ctx) (t : FdTable) (env : FdEnv)
    (fd : Int) (iovcnt raw : Int)
    (ht : tableInvB t = true) (hreg : env.isReg = true) (hiov : 0 < iovcnt) :
    tableInvB (handle_writev cx t env fd iovcnt raw).table = true := by
  cases hr : cx.ready with
  | false => simpa [handle_writev, Guard.enter, hr] using ht
  | true =>
    by_cases hd : cx.depth = 0
    · rcases hmp : maybe_pre_on_first_write env cx.pre fd t with ⟨t1, allow, evs⟩
      have hinv1 := tableInvB_maybe_pre env cx.pre fd t ht
      have hps := maybe_pre_preSentAt_self env cx.pre fd t hreg
      rw [hmp] at hinv1 hps
      simp only at hinv1 hps
      cases allow with
      | false =>
        simpa [handle_writev, Guard.enter, hr, hd, hiov, hmp] using hinv1
      | true =>
        by_cases hraw : 0 ≤ raw
        · simp only [handle_writev, Guard.enter, hr, hd, hiov, hraw, hmp,
            decide_True, true_and, if_true, Bool.not_true, Bool.not_false,
            Bool.false_eq_true, if_false, and_true, and_self]
          exact tableInvB_mark env fd t1 hinv1 hps
        · simpa [handle_writev, Guard.enter, hr, hd, hiov, hraw, hmp] using hinv1
    · simpa [handle_writev, Guard.enter, hr, hd] using ht

theorem tableInvB_handle_close (cx : Ctx) (t : FdTable) (fd rc : Int)
    (ht : tableInvB t = true) :
    tableInvB (handle_close cx t fd rc).table = true := by
  cases hr : cx.ready with
  | false => simpa [handle_close, Guard.enter, hr] using ht
  | true =>
    by_cases hd : cx.depth = 0
    · simp only [handle_close, Guard.enter, hr, hd, decide_True, true_and, if_true,
        Bool.not_true, Bool.false_eq_true, if_false, take_fd]
      exact tableInvB_eraseFd t fd ht
    · simpa [handle_close, Guard.enter, hr, hd] using ht

theorem maybe_pre_dirtyAt_triple (env : FdEnv) (pre : RpcMethod → String → Bool)
    (fd fd' : Int) (t t1 : FdTable) (allow : Bool) (evs : List Msg)
    (hmp : maybe_pre_on_first_write env pre fd t = (t1, allow, evs)) :
    dirtyAt t1 fd' = dirtyAt t fd' := by
  have h := maybe_pre_dirtyAt env pre fd fd' t
  rw [hmp] at h
  exact h

/-! ### Claim theorems -/

/-- C1: the claim says a successful close of a tracked, dirty fd with a
known path emits exactly one `post_modify` notification.  In the source,
`post_notify` returns immediately when `in_shim()` is true, and inside
`handle_close` the handler's own guard has already raised the thread's
depth counter above zero, so `in_shim()` is always true there: the close
handler emits no message whatsoever, on any input. -/
theorem C1_close_emits_no_notification (cx : Ctx) (t : FdTable) (fd rc : Int) :
    (handle_close cx t fd rc).events = [] :=
  handle_close_events_nil cx t fd rc

/-- C3: the preflight decision — disabled destination always allows; a
serialization error, a missing stream (connect failure), a timed-out,
failed, or EOF read, a malformed reply, or a reply without `result.allow`
all yield the fail-open/fail-closed policy (`!fail_closed`); a well-formed
reply yields exactly its `allow` field; and the discarded result of the
request write does not influence the outcome. -/
theorem C3_preflight_fail_policy (fc serOk wOk b : Bool) (pu pt2 : String)
    (conn : Option ExchangeOutcome) :
    preflight_block Destination.disabled fc serOk wOk conn = true
    ∧ preflight_block (Destination.unix pu) fc false wOk conn = !fc
    ∧ preflight_block (Destination.tcp pt2) fc false wOk conn = !fc
    ∧ preflight_block (Destination.unix pu) fc true wOk none = !fc
    ∧ preflight_block (Destination.unix pu) fc true wOk (some ExchangeOutcome.timedOut) = !fc
    ∧ preflight_block (Destination.unix pu) fc true wOk (some ExchangeOutcome.readError) = !fc
    ∧ preflight_block (Destination.unix pu) fc true wOk (some ExchangeOutcome.eof) = !fc
    ∧ preflight_block (Destination.unix pu) fc true wOk (some (ExchangeOutcome.line none)) = !fc
    ∧ preflight_block (Destination.unix pu) fc true wOk
        (some (ExchangeOutcome.line (some { result := none }))) = !fc
    ∧ preflight_block (Destination.unix pu) fc true wOk
        (some (ExchangeOutcome.line (some { result := some { allow := b } }))) = b
    ∧ preflight_block (Destination.tcp pt2) fc true wOk
        (some (ExchangeOutcome.line (some { result := some { allow := b } }))) = b
    ∧ preflight_block (Destination.unix pu) fc serOk true conn
        = preflight_block (Destination.unix pu) fc serOk false conn := by
  refine ⟨rfl, rfl, rfl, rfl, rfl, rfl, rfl, rfl, rfl, rfl, rfl, rfl⟩

/-- C7 counterexample: the claim says a failed close (non-zero return)
leaves the table entry intact.  In the source, `take_fd(fd)` runs on every
primary close before the return code is inspected, so a close returning -1
still removes the entry. -/
theorem C7_cx_failed_close_removes_entry :
    (handle_close cxAllow tDirty3 3 (-1)).ret = -1
    ∧ (handle_close cxAllow tDirty3 3 (-1)).table = [] := by
  constructor
  · rfl
  · rfl

/-- C7 amended: on a primary, enabled entry the close handler removes the
fd's table entry regardless of the raw close result (and, failed or not,
emits nothing); only a not-ready shim leaves the table untouched. -/
theorem C7_amended_close_always_removes (cx : Ctx) (t : FdTable) (fd rc : Int)
    (hready : cx.ready = true) (hdepth : cx.depth = 0) :
    (handle_close cx t fd rc).table = eraseFd t fd
    ∧ (rc ≠ 0 → (handle_close cx t fd rc).events = [])
    ∧ (handle_close { cx with ready := false } t fd rc).table = t := by
  refine ⟨?_, fun _ => handle_close_events_nil cx t fd rc, ?_⟩
  · simp [handle_close, Guard.enter, hready, hdepth, take_fd]
  · simp [handle_close, Guard.enter]

/-- C7 amended, witness at a concrete failed close. -/
theorem C7_amended_close_always_removes_witness :
    (handle_close cxAllow tDirty3 3 (-1)).table = eraseFd tDirty3 3
    ∧ ((-1 : Int) ≠ 0 → (handle_close cxAllow tDirty3 3 (-1)).events = [])
    ∧ (handle_close { cxAllow with ready := false } tDirty3 3 (-1)).table = tDirty3 :=
  C7_amended_close_always_removes cxAllow tDirty3 3 (-1) rfl rfl

/-- C8 counterexample: the claim says every dirty record has `pre_sent`.
A successful `ftruncate` on an untracked fd issues no preflight (there is
no tracked path) and then `mark_fd_dirty` creates a record with
`dirty = true` and `pre_sent = false`. -/
theorem C8_cx_ftruncate_dirty_without_pre_sent :
    dirtyAt (handle_ftruncate cxAllow [] envReg 3 0 0).table 3 = true
    ∧ preSentAt (handle_ftruncate cxAllow [] envReg 3 0 0).table 3 = false := by
  constructor
  · rfl
  · rfl

/-- C8 amended: `dirty → pre_sent` is preserved by the write-family
handlers on regular-file fds (writev needs a positive iovcnt) and by
close; it is not an invariant of the whole system, since `ftruncate` on an
untracked fd, `writev` with `iovcnt ≤ 0`, and writes to non-regular fds
create dirty records whose `pre_sent` is false. -/
theorem C8_amended_write_family_preserves_inv (cx : Ctx) (t : FdTable) (env : FdEnv)
    (fd : Int) (count : Nat) (off raw iovcnt rc : Int)
    (ht : tableInvB t = true) (hreg : env.isReg = true) (hiov : 0 < iovcnt) :
    tableInvB (handle_write cx t env fd count raw).table = true
    ∧ tableInvB (handle_pwrite cx t env fd count off raw).table = true
    ∧ tableInvB (handle_writev cx t env fd iovcnt raw).table = true
    ∧ tableInvB (handle_close cx t fd rc).table = true :=
  ⟨tableInvB_handle_write cx t env fd count raw ht hreg,
   tableInvB_handle_pwrite cx t env fd count off raw ht hreg,
   tableInvB_handle_writev cx t env fd iovcnt raw ht hreg hiov,
   tableInvB_handle_close cx t fd rc ht⟩

/-- C8 amended, witness at a concrete first write. -/
theorem C8_amended_write_family_preserves_inv_witness :
    tableInvB (handle_write cxAllow tUFd4 envReg 3 5 5).table = true
    ∧ tableInvB (handle_pwrite cxAllow tUFd4 envReg 3 5 0 5).table = true
    ∧ tableInvB (handle_writev cxAllow tUFd4 envReg 3 1 5).table = true
    ∧ tableInvB (handle_close cxAllow tUFd4 3 0).table = true :=
  C8_amended_write_family_preserves_inv cxAllow tUFd4 envReg 3 5 0 5 1 0
    (by decide) (by decide) (by decide)

/-- C9: entering and dropping a handler guard restores the thread's depth
counter (below the u32 saturation point), a not-ready shim leaves the
counter untouched in both directions, and the drop saturates at zero so
the counter can never go negative. -/
theorem C9_guard_depth_balanced (ready : Bool) (depth : Nat) (h : depth < u32Max) :
    Guard.drop (Guard.enter ready depth).1 (Guard.enter ready depth).2 = depth
    ∧ (Guard.enter false depth).2 = depth
    ∧ Guard.drop (Guard.enter false depth).1 depth = depth
    ∧ Guard.drop (Guard.enter ready depth).1 0 = 0 := by
  have hs : satAdd32 depth = depth + 1 := by
    have : depth + 1 ≤ u32Max := by omega
    simp [satAdd32, Nat.min_eq_left this]
  cases ready
  · simp [Guard.enter, Guard.drop]
  · simp [Guard.enter, Guard.drop, hs]

/-- C9 witness at a ready shim and depth 3. -/
theorem C9_guard_depth_balanced_witness :
    Guard.drop (Guard.enter true 3).1 (Guard.enter true 3).2 = 3
    ∧ (Guard.enter false 3).2 = 3
    ∧ Guard.drop (Guard.enter false 3).1 3 = 3
    ∧ Guard.drop (Guard.enter true 3).1 0 = 0 :=
  C9_guard_depth_balanced true 3 (by norm_num [u32Max])

/-- C2: on a primary, enabled entry, a preflight denial makes every
mediated handler return -1 with errno EPERM without performing the raw
syscall — for write/pwrite/writev (first-touch `pre_modify` denied), for
unlink (`pre_delete`), rename (`pre_rename` on the destination), truncate
and ftruncate (`pre_truncate`). -/
theorem C2_preflight_deny_blocks (cx : Ctx) (t : FdTable) (env : FdEnv)
    (fda fdb : Int) (count : Nat) (iovcnt off raw rcU rcR lenT rcT lenF rcF : Int)
    (pQ pR pS : Option String) (q r s u : String)
    (hready : cx.ready = true) (hdepth : cx.depth = 0)
    (hcount : 0 < count) (hiov : 0 < iovcnt)
    (hden : (maybe_pre_on_first_write env cx.pre fda t).2.1 = false)
    (hq : c_path pQ = some q) (hdq : cx.pre RpcMethod.preDelete q = false)
    (hr : c_path pR = some r) (hdr : cx.pre RpcMethod.preRename r = false)
    (hs : c_path pS = some s) (hds : cx.pre RpcMethod.preTruncate s = false)
    (hu : tracked_path t fdb = some u) (hdu : cx.pre RpcMethod.preTruncate u = false) :
    denied (handle_write cx t env fda count raw)
    ∧ denied (handle_pwrite cx t env fda count off raw)
    ∧ denied (handle_writev cx t env fda iovcnt raw)
    ∧ denied (handle_unlink cx t pQ rcU)
    ∧ denied (handle_rename cx t pS pR rcR)
    ∧ denied (handle_truncate cx t pS lenT rcT)
    ∧ denied (handle_ftruncate cx t env fdb lenF rcF) := by
  rcases hmp : maybe_pre_on_first_write env cx.pre fda t with ⟨t1, allow, evs⟩
  rw [hmp] at hden
  simp only at hden
  subst hden
  refine ⟨?_, ?_, ?_, ?_, ?_, ?_, ?_⟩
  · simp [denied, handle_write, Guard.enter, hready, hdepth, hcount, hmp]
  · simp [denied, handle_pwrite, Guard.enter, hready, hdepth, hcount, hmp]
  · simp [denied, handle_writev, Guard.enter, hready, hdepth, hiov, hmp]
  · simp [denied, handle_unlink, Guard.enter, hready, hdepth, hq, hdq]
  · simp [denied, handle_rename, Guard.enter, hready, hdepth, hr, hdr]
  · simp [denied, handle_truncate, Guard.enter, hready, hdepth, hs, hds]
  · simp [denied, handle_ftruncate, Guard.enter, hready, hdepth, hu, hdu]

/-- C2 witness: a deny-all controller blocks all seven mediated calls. -/
theorem C2_preflight_deny_blocks_witness :
    denied (handle_write cxDeny tUFd4 envReg 3 1 1)
    ∧ denied (handle_pwrite cxDeny tUFd4 envReg 3 1 0 1)
    ∧ denied (handle_writev cxDeny tUFd4 envReg 3 1 1)
    ∧ denied (handle_unlink cxDeny tUFd4 (some ("/q")) 0)
    ∧ denied (handle_rename cxDeny tUFd4 (some ("/s")) (some ("/r")) 0)
    ∧ denied (handle_truncate cxDeny tUFd4 (some ("/s")) 0 0)
    ∧ denied (handle_ftruncate cxDeny tUFd4 envReg 4 0 0) :=
  C2_preflight_deny_blocks cxDeny tUFd4 envReg 3 4 1 1 0 1 0 0 0 0 0 0
    (some ("/q")) (some ("/r")) (some ("/s")) "/q" "/r" "/s" "/u"
    rfl rfl (by decide) (by decide) (by decide)
    (by decide) rfl (by decide) rfl (by decide) rfl (by decide) rfl

/-- C4: along any trace of write-family operations, the `pre_sent` flag of
an fd's record never goes back from true to false (once set, every later
step keeps it and issues no further `pre_modify` for that fd), and at most
one `pre_modify` preflight is ever issued for that fd. -/
theorem C4_pre_sent_monotone_single_preflight (ops : List (Ctx × WOp))
    (t0 : FdTable) (fd : Int) :
    (preSentAt t0 fd = true →
      preSentAt (runW t0 ops).1 fd = true ∧ countPreModify fd (runW t0 ops).2 = 0)
    ∧ countPreModify fd (runW t0 ops).2 ≤ 1 :=
  runW_pre_bound ops t0 fd

/-- C4 witness: two consecutive writes on an fd whose preflight was already
sent issue no preflight at all. -/
theorem C4_pre_sent_monotone_single_preflight_witness :
    (preSentAt (runW tSent3 opsTwoWrites).1 3 = true
      ∧ countPreModify 3 (runW tSent3 opsTwoWrites).2 = 0)
    ∧ countPreModify 3 (runW tSent3 opsTwoWrites).2 ≤ 1 :=
  ⟨(C4_pre_sent_monotone_single_preflight opsTwoWrites tSent3 3).1 (by decide),
   (C4_pre_sent_monotone_single_preflight opsTwoWrites tSent3 3).2⟩

/-- C5 counterexample: the claim says a write to a non-regular fd creates
no FD-table entry.  In the source the dirty-marking after a successful
write is not gated on the regular-file check, so a successful write to a
pipe does create a (pathless, dirty) table entry. -/
theorem C5_cx_pipe_write_creates_entry :
    (handle_write cxDeny [] envPipe 3 5 5).events = []
    ∧ (handle_write cxDeny [] envPipe 3 5 5).ret = 5
    ∧ (handle_write cxDeny [] envPipe 3 5 5).rawCalled = true
    ∧ lookupFd (handle_write cxDeny [] envPipe 3 5 5).table 3
        = some { path := none, dev := 3, ino := 4, dirty := true, pre_sent := false } :=
  ⟨rfl, rfl, rfl, rfl⟩

/-- C5 amended: a write/pwrite/writev on a non-regular fd issues no
preflight, emits no message, and returns its raw result unchanged; however
a successful primary write still runs `mark_fd_dirty`, creating/marking a
table entry, while a non-positive result (or zero count) leaves the table
alone. -/
theorem C5_amended_nonregular_write_passthrough (cx : Ctx) (t : FdTable) (env : FdEnv)
    (fd : Int) (count countB : Nat) (raw rawB rawC off : Int) (iovcnt : Int)
    (hnr : env.isReg = false)
    (hready : cx.ready = true) (hdepth : cx.depth = 0)
    (hcB : 0 < countB) (hrB : 0 < rawB) (hrC : rawC ≤ 0) :
    ((handle_write cx t env fd count raw).events = []
      ∧ (handle_write cx t env fd count raw).ret = raw
      ∧ (handle_write cx t env fd count raw).errno = none
      ∧ (handle_write cx t env fd count raw).rawCalled = true)
    ∧ ((handle_pwrite cx t env fd count off raw).events = []
      ∧ (handle_pwrite cx t env fd count off raw).ret = raw)
    ∧ ((handle_writev cx t env fd iovcnt raw).events = []
      ∧ (handle_writev cx t env fd iovcnt raw).ret = raw)
    ∧ (handle_write cx t env fd countB rawB).table = mark_fd_dirty env fd t
    ∧ (handle_write cx t env fd countB rawC).table = t := by
  have hmp := maybe_pre_not_reg env cx.pre fd t hnr
  refine ⟨?_, ?_, ?_, ?_, ?_⟩
  · by_cases hc : 0 < count <;> by_cases hraw : 0 < raw <;>
      simp [handle_write, Guard.enter, hready, hdepth, hc, hraw, hmp,
        debug_event_in_handler]
  · by_cases hc : 0 < count <;> by_cases hraw : 0 < raw <;>
      simp [handle_pwrite, Guard.enter, hready, hdepth, hc, hraw, hmp,
        debug_event_in_handler]
  · by_cases hc : 0 < iovcnt <;> by_cases hraw : 0 ≤ raw <;>
      simp [handle_writev, Guard.enter, hready, hdepth, hc, hraw, hmp,
        debug_event_in_handler]
  · simp [handle_write, Guard.enter, hready, hdepth, hcB, hrB, hmp,
      debug_event_in_handler]
  · have hrawC : ¬(0 < rawC) := by omega
    simp [handle_write, Guard.enter, hready, hdepth, hcB, hrawC, hmp,
      debug_event_in_handler]

/-- C5 amended witness on a pipe fd. -/
theorem C5_amended_nonregular_write_passthrough_witness :
    ((handle_write cxAllow [] envPipe 3 0 (-2)).events = []
      ∧ (handle_write cxAllow [] envPipe 3 0 (-2)).ret = -2
      ∧ (handle_write cxAllow [] envPipe 3 0 (-2)).errno = none
      ∧ (handle_write cxAllow [] envPipe 3 0 (-2)).rawCalled = true)
    ∧ ((handle_pwrite cxAllow [] envPipe 3 0 0 (-2)).events = []
      ∧ (handle_pwrite cxAllow [] envPipe 3 0 0 (-2)).ret = -2)
    ∧ ((handle_writev cxAllow [] envPipe 3 0 (-2)).events = []
      ∧ (handle_writev cxAllow [] envPipe 3 0 (-2)).ret = -2)
    ∧ (handle_write cxAllow [] envPipe 3 5 5).table = mark_fd_dirty envPipe 3 []
    ∧ (handle_write cxAllow [] envPipe 3 5 0).table = [] :=
  C5_amended_nonregular_write_passthrough cxAllow [] envPipe 3 0 5 (-2) 5 0 0 0
    rfl rfl rfl (by decide) (by decide) (by decide)

/-- C6 counterexample: the claim says a zero-iovcnt writev performs the raw
call with no tracking and that a zero raw result leaves the dirty flag
unchanged.  In the source, `handle_writev` marks the fd dirty whenever the
raw result is nonnegative, with no iovcnt condition: a zero-iovcnt writev
returning 0 creates a dirty entry. -/
theorem C6_cx_writev_zero_iovcnt_marks_dirty :
    (handle_writev cxAllow [] envReg 3 0 0).rawCalled = true
    ∧ (handle_writev cxAllow [] envReg 3 0 0).events = []
    ∧ lookupFd (handle_writev cxAllow [] envReg 3 0 0).table 3
        = some { path := some ("/tmp/f"), dev := 1, ino := 2, dirty := true, pre_sent := false } :=
  ⟨rfl, rfl, rfl⟩

/-- C6 amended: for write and pwrite the claim holds — zero count is a raw
pass-through with no tracking, a positive raw result sets `dirty`, and a
non-positive one leaves it unchanged; for writev, `dirty` is set whenever
the raw result is nonnegative (even with `iovcnt ≤ 0`), and only a
negative raw result leaves it unchanged. -/
theorem C6_amended_dirty_marking (cx : Ctx) (t : FdTable) (env : FdEnv) (fd : Int)
    (r0 rPos rNonpos rVnn rVneg off : Int) (cPos : Nat) (iv ivn : Int)
    (hready : cx.ready = true) (hdepth : cx.depth = 0)
    (hcPos : 0 < cPos) (hrPos : 0 < rPos) (hrNonpos : rNonpos ≤ 0)
    (hrVnn : 0 ≤ rVnn) (hrVneg : rVneg < 0) :
    ((handle_write cx t env fd 0 r0).table = t
      ∧ (handle_write cx t env fd 0 r0).ret = r0
      ∧ (handle_write cx t env fd 0 r0).rawCalled = true)
    ∧ ((handle_write cx t env fd cPos rPos).rawCalled = true →
        dirtyAt (handle_write cx t env fd cPos rPos).table fd = true)
    ∧ dirtyAt (handle_write cx t env fd cPos rNonpos).table fd = dirtyAt t fd
    ∧ ((handle_pwrite cx t env fd 0 off r0).table = t
      ∧ (handle_pwrite cx t env fd 0 off r0).ret = r0
      ∧ (handle_pwrite cx t env fd 0 off r0).rawCalled = true)
    ∧ ((handle_pwrite cx t env fd cPos off rPos).rawCalled = true →
        dirtyAt (handle_pwrite cx t env fd cPos off rPos).table fd = true)
    ∧ dirtyAt (handle_pwrite cx t env fd cPos off rNonpos).table fd = dirtyAt t fd
    ∧ ((handle_writev cx t env fd iv rVnn).rawCalled = true →
        dirtyAt (handle_writev cx t env fd iv rVnn).table fd = true)
    ∧ dirtyAt (handle_writev cx t env fd ivn rVneg).table fd = dirtyAt t fd := by
  have hrNP : ¬(0 < rNonpos) := by omega
  have hrVN : ¬(0 ≤ rVneg) := by omega
  refine ⟨?_, ?_, ?_, ?_, ?_, ?_, ?_, ?_⟩
  · simp [handle_write, Guard.enter, hready, hdepth]
  · rcases hmp : maybe_pre_on_first_write env cx.pre fd t with ⟨t1, allow, evs⟩
    cases allow with
    | false =>
      intro hrc
      simp [handle_write, Guard.enter, hready, hdepth, hcPos, hmp] at hrc
    | true =>
      intro _
      simp only [handle_write, Guard.enter, hready, hdepth, hcPos, hrPos, hmp,
        decide_True, true_and, if_true, Bool.not_true, Bool.not_false,
        Bool.false_eq_true, if_false, and_true, and_self]
      exact mark_fd_dirty_dirtyAt_self env fd t1
  · rcases hmp : maybe_pre_on_first_write env cx.pre fd t with ⟨t1, allow, evs⟩
    have hpres := maybe_pre_dirtyAt_triple env cx.pre fd fd t t1 allow evs hmp
    cases allow with
    | false =>
      simpa [handle_write, Guard.enter, hready, hdepth, hcPos, hmp] using hpres
    | true =>
      simpa [handle_write, Guard.enter, hready, hdepth, hcPos, hrNP, hmp] using hpres
  · simp [handle_pwrite, Guard.enter, hready, hdepth]
  · rcases hmp : maybe_pre_on_first_write env cx.pre fd t with ⟨t1, allow, evs⟩
    cases allow with
    | false =>
      intro hrc
      simp [handle_pwrite, Guard.enter, hready, hdepth, hcPos, hmp] at hrc
    | true =>
      intro _
      simp only [handle_pwrite, Guard.enter, hready, hdepth, hcPos, hrPos, hmp,
        decide_True, true_and, if_true, Bool.not_true, Bool.not_false,
        Bool.false_eq_true, if_false, and_true, and_self]
      exact mark_fd_dirty_dirtyAt_self env fd t1
  · rcases hmp : maybe_pre_on_first_write env cx.pre fd t with ⟨t1, allow, evs⟩
    have hpres := maybe_pre_dirtyAt_triple env cx.pre fd fd t t1 allow evs hmp
    cases allow with
    | false =>
      simpa [handle_pwrite, Guard.enter, hready, hdepth, hcPos, hmp] using hpres
    | true =>
      simpa [handle_pwrite, Guard.enter, hready, hdepth, hcPos, hrNP, hmp] using hpres
  · intro hrc
    by_cases hiv : 0 < iv
    · rcases hmp : maybe_pre_on_first_write env cx.pre fd t with ⟨t1, allow, evs⟩
      cases allow with
      | false =>
        simp [handle_writev, Guard.enter, hready, hdepth, hiv, hmp] at hrc
      | true =>
        simp only [handle_writev, Guard.enter, hready, hdepth, hiv, hrVnn, hmp,
          decide_True, true_and, if_true, Bool.not_true, Bool.not_false,
          Bool.false_eq_true, if_false, and_true, and_self]
        exact mark_fd_dirty_dirtyAt_self env fd t1
    · simp only [handle_writev, Guard.enter, hready, hdepth, hiv, hrVnn,
        decide_True, true_and, if_true, Bool.not_true, Bool.not_false,
        Bool.false_eq_true, if_false, and_true, and_false, false_and, and_self]
      exact mark_fd_dirty_dirtyAt_self env fd t
  · by_cases hiv : 0 < ivn
    · rcases hmp : maybe_pre_on_first_write env cx.pre fd t with ⟨t1, allow, evs⟩
      have hpres := maybe_pre_dirtyAt_triple env cx.pre fd fd t t1 allow evs hmp
      cases allow with
      | false =>
        simpa [handle_writev, Guard.enter, hready, hdepth, hiv, hmp] using hpres
      | true =>
        simpa [handle_writev, Guard.enter, hready, hdepth, hiv, hrVN, hmp] using hpres
    · simp [handle_writev, Guard.enter, hready, hdepth, hiv, hrVN]

/-- C6 amended witness, including a zero-iovcnt writev that sets dirty. -/
theorem C6_amended_dirty_marking_witness :
    ((handle_write cxAllow [] envReg 3 0 7).table = []
      ∧ (handle_write cxAllow [] envReg 3 0 7).ret = 7
      ∧ (handle_write cxAllow [] envReg 3 0 7).rawCalled = true)
    ∧ dirtyAt (handle_write cxAllow [] envReg 3 2 5).table 3 = true
    ∧ dirtyAt (handle_write cxAllow [] envReg 3 2 0).table 3 = dirtyAt [] 3
    ∧ ((handle_pwrite cxAllow [] envReg 3 0 0 7).table = []
      ∧ (handle_pwrite cxAllow [] envReg 3 0 0 7).ret = 7
      ∧ (handle_pwrite cxAllow [] envReg 3 0 0 7).rawCalled = true)
    ∧ dirtyAt (handle_pwrite cxAllow [] envReg 3 2 0 5).table 3 = true
    ∧ dirtyAt (handle_pwrite cxAllow [] envReg 3 2 0 0).table 3 = dirtyAt [] 3
    ∧ dirtyAt (handle_writev cxAllow [] envReg 3 0 0).table 3 = true
    ∧ dirtyAt (handle_writev cxAllow [] envReg 3 1 (-1)).table 3 = dirtyAt [] 3 := by
  have h := C6_amended_dirty_marking cxAllow [] envReg 3 7 5 0 0 (-1) 0 2 0 1
    rfl rfl (by decide) (by decide) (by decide) (by decide) (by decide)
  exact ⟨h.1, h.2.1 (by decide), h.2.2.1, h.2.2.2.1, h.2.2.2.2.1 (by decide),
    h.2.2.2.2.2.1, h.2.2.2.2.2.2.1 (by decide), h.2.2.2.2.2.2.2⟩

/-- C10: an unlink, rename, or truncate whose relevant path argument is a
NULL pointer or an empty C string issues no preflight and no notification,
leaves the table alone, and passes the raw result through unchanged (for
rename this concerns the destination path; the source may be anything). -/
theorem C10_null_or_empty_path_passthrough (cx : Ctx) (t : FdTable)
    (pa old : Option String) (rcU rcR len rcT : Int)
    (h : c_path pa = none) :
    ((handle_unlink cx t pa rcU).ret = rcU
      ∧ (handle_unlink cx t pa rcU).errno = none
      ∧ (handle_unlink cx t pa rcU).events = []
      ∧ (handle_unlink cx t pa rcU).rawCalled = true
      ∧ (handle_unlink cx t pa rcU).table = t)
    ∧ ((handle_rename cx t old pa rcR).ret = rcR
      ∧ (handle_rename cx t old pa rcR).errno = none
      ∧ (handle_rename cx t old pa rcR).events = []
      ∧ (handle_rename cx t old pa rcR).rawCalled = true
      ∧ (handle_rename cx t old pa rcR).table = t)
    ∧ ((handle_truncate cx t pa len rcT).ret = rcT
      ∧ (handle_truncate cx t pa len rcT).errno = none
      ∧ (handle_truncate cx t pa len rcT).events = []
      ∧ (handle_truncate cx t pa len rcT).rawCalled = true
      ∧ (handle_truncate cx t pa len rcT).table = t) := by
  refine ⟨?_, ?_, ?_⟩ <;>
  · cases hr : cx.ready with
    | false =>
      simp [handle_unlink, handle_rename, handle_truncate, Guard.enter, hr]
    | true =>
      by_cases hd : cx.depth = 0 <;>
        simp [handle_unlink, handle_rename, handle_truncate, Guard.enter, hr, hd, h,
          debug_event_in_handler]

/-- C10 witness with a NULL path pointer. -/
theorem C10_null_or_empty_path_passthrough_witness :
    ((handle_unlink cxAllow [] none 0).ret = 0
      ∧ (handle_unlink cxAllow [] none 0).errno = none
      ∧ (handle_unlink cxAllow [] none 0).events = []
      ∧ (handle_unlink cxAllow [] none 0).rawCalled = true
      ∧ (handle_unlink cxAllow [] none 0).table = [])
    ∧ ((handle_rename cxAllow [] (some ("/a")) none 0).ret = 0
      ∧ (handle_rename cxAllow [] (some ("/a")) none 0).errno = none
      ∧ (handle_rename cxAllow [] (some ("/a")) none 0).events = []
      ∧ (handle_rename cxAllow [] (some ("/a")) none 0).rawCalled = true
      ∧ (handle_rename cxAllow [] (some ("/a")) none 0).table = [])
    ∧ ((handle_truncate cxAllow [] none 0 0).ret = 0
      ∧ (handle_truncate cxAllow [] none 0 0).errno = none
      ∧ (handle_truncate cxAllow [] none 0 0).events = []
      ∧ (handle_truncate cxAllow [] none 0 0).rawCalled = true
      ∧ (handle_truncate cxAllow [] none 0 0).table = []) :=
  C10_null_or_empty_path_passthrough cxAllow [] none (some ("/a")) 0 0 0 0 rfl

end Shim
